import Mathlib

/-!
Shallow embedding of the TorchLearn notebook (`src/Custom_modules.ipynb`).

The notebook defines a custom `Linear` module (parameters `w`, `b`; forward
computes `torch.matmul(x, self.w) + self.b`), trains it as a linear
regression model on synthetic data with a shuffled-batch training loop, and
defines a `MyLambda` wrapper module.

Tensors are modelled as a shape (list of dimension sizes, row-major) together
with a flat data function on ℚ; fallible tensor operations return `Option`.
The optimizer is kept abstract (the spec classifies it as an external
algorithm supplied by the framework), while the loss, the model forward and
the gradients of this specific computation graph are embedded concretely.
-/

namespace TorchLearn

/-- A tensor: a row-major shape together with a flat data function.
Entries beyond the shape's product are irrelevant junk. -/
structure Tensor where
  shape : List ℕ
  data : ℕ → ℚ

/-- A learnable parameter: a tensor tracked for gradient computation,
modelling `torch.nn.Parameter` (whose `requires_grad` defaults to `True`). -/
structure Parameter where
  tensor : Tensor
  requires_grad : Bool

/-- Batched matrix product `torch.matmul(x, w)` for the case used by the
notebook: `w` two-dimensional of shape `[a, c]`, `x` of any nonzero number of
dimensions whose last dimension must equal `a`; the result has shape
`x.shape[:-1] ++ [c]`, and entry `(r, j)` (flat index `r * c + j`) is
`Σ_{i<a} x[r, i] * w[i, j]`. Any shape mismatch raises in torch, modelled
as `none`. -/
def matmul (x w : Tensor) : Option Tensor :=
  match w.shape with
  | [a, c] =>
    if x.shape ≠ [] ∧ x.shape.getLastD 0 = a then
      some ⟨x.shape.dropLast ++ [c], fun idx =>
        (Finset.range a).sum (fun i => x.data ((idx / c) * a + i) * w.data (i * c + idx % c))⟩
    else none
  | _ => none

/-- Elementwise addition of a one-dimensional tensor `v` of shape `[u]`,
broadcast over the last axis of `t` — the broadcasting case exercised by
`... + self.b` in `Linear.forward`. -/
def addVec (t v : Tensor) : Option Tensor :=
  match v.shape with
  | [u] =>
    if t.shape ≠ [] ∧ t.shape.getLastD 0 = u then
      some ⟨t.shape, fun idx => t.data idx + v.data (idx % u)⟩
    else none
  | _ => none

/-- The custom densely-connected layer of the notebook: its state is the two
member parameters `w` and `b` (no other attributes are stored). -/
structure Linear where
  w : Parameter
  b : Parameter

/-- `Linear.__init__(units, input_dim)`: `self.w = Parameter(randn((input_dim, units)))`
and `self.b = Parameter(zeros((units,)))`. The random draw of `torch.randn`
is supplied as the data function `wdata`. -/
def Linear.init (units input_dim : ℕ) (wdata : ℕ → ℚ) : Linear :=
  ⟨⟨⟨[input_dim, units], wdata⟩, true⟩, ⟨⟨[units], fun _ => 0⟩, true⟩⟩

/-- `Linear.forward(x)`: `return torch.matmul(x, self.w) + self.b`. -/
def Linear.forward (l : Linear) (x : Tensor) : Option Tensor :=
  (matmul x l.w.tensor).bind (fun t => addVec t l.b.tensor)

/-- Modelled from the spec: `nn.Module` registers each attribute assigned a
`torch.nn.Parameter` and `model.parameters()` yields the registered
parameters; `Linear.__init__` assigns exactly `self.w` then `self.b`. -/
def Linear.parameters (l : Linear) : List Parameter :=
  [l.w, l.b]

/-- The lambda-style wrapper module: stores an arbitrary function `func`
as a plain attribute and applies it in `forward`. -/
structure MyLambda (α β : Type) where
  func : α → β

/-- `MyLambda.forward(inputs)`: `return self.func(inputs)`. -/
def MyLambda.forward {α β : Type} (m : MyLambda α β) (inputs : α) : β :=
  m.func inputs

/-- Modelled from the spec: `parameters()` yields registered `Parameter`s;
`MyLambda.__init__` stores `func` as a plain attribute, registering none. -/
def MyLambda.parameters {α β : Type} (_ : MyLambda α β) : List Parameter :=
  []

/-! ### The training loop

The notebook trains `model = Linear(units=1, input_dim=1)` on synthetic data
`x` of shape `[n_batches, batch_size, 1]` with `criterion = MSELoss(reduction='sum')`
and an optimizer built over `model.parameters()`. Because `units = input_dim = 1`,
the model's two parameters are the single entries of its `1 × 1` matrix `w`
and 1-element vector `b`; the loop state carries them as the rationals `w`, `b`
(theorem `model_is_linear_one` ties this scalar view to `Linear.forward`).
The optimizer is an abstract transition `OptStep` (external framework code);
the loss and the gradients of this concrete computation graph are embedded
exactly. -/

def n_batches : ℕ := 64

def batch_size : ℕ := 32

def epoches : ℕ := 200

/-- `t[perm]` for a tensor whose leading axis is indexed by `perm`:
row `k` of the result is row `perm k` of `t` (the semantics of integer-array
indexing `x[rand_perm]` on the first axis). -/
def indexSelect0 (t : Tensor) (perm : ℕ → ℕ) : Tensor :=
  ⟨t.shape, fun idx =>
    t.data (perm (idx / (t.shape.drop 1).prod) * (t.shape.drop 1).prod
      + idx % (t.shape.drop 1).prod)⟩

/-- Element `i` (a scalar, since the trailing axis has size 1) of batch `t`
of a dataset tensor of shape `[n_batches, batch_size, 1]`. -/
def bentry (d : Tensor) (t i : ℕ) : ℚ :=
  d.data (t * batch_size + i)

/-- An optimizer step: from the optimizer's internal state, the current
parameter values `(w, b)` and their gradients `(gw, gb)`, produce the new
internal state and the new parameter values. -/
def OptStep (σ : Type) : Type :=
  σ → ℚ × ℚ → ℚ × ℚ → σ × (ℚ × ℚ)

/-- `torch.optim.SGD(params, lr)` restricted to the two scalar parameters:
stateless, subtracts `lr` times the gradient (the optimizer commented out in
the notebook; used to instantiate the abstract optimizer in witnesses). -/
def sgdStep (lr : ℚ) : OptStep Unit :=
  fun u wb g => (u, (wb.1 - lr * g.1, wb.2 - lr * g.2))

/-- The mutable state of the training cell: the dataset tensors `x`, `y`,
the epoch-local shuffled views `x_perm`, `y_perm`, the model parameters
`w`, `b` with their gradient accumulators `gw`, `gb`, the loop-local
variables `y_pred` and `loss`, the optimizer's internal state and the
`history` list. -/
structure TrainState (σ : Type) where
  x : Tensor
  y : Tensor
  x_perm : Tensor
  y_perm : Tensor
  w : ℚ
  b : ℚ
  gw : ℚ
  gb : ℚ
  y_pred : ℕ → ℚ
  loss : ℚ
  opt : σ
  history : List ℚ

/-- The model's prediction for a scalar input: `Linear(units=1, input_dim=1)`
applied to a one-element tensor is the affine value `w * x + b`. -/
def predict (w b x : ℚ) : ℚ :=
  w * x + b

/-- `y_pred = model(x_perm[t])`: the forward pass on batch `t`. -/
def forwardOp {σ : Type} (s : TrainState σ) (t : ℕ) : TrainState σ :=
  { s with y_pred := fun i => predict s.w s.b (bentry s.x_perm t i) }

/-- `loss = criterion(y_pred, y_perm[t])` with `MSELoss(reduction='sum')`:
the sum of squared differences over the batch. -/
def lossOp {σ : Type} (s : TrainState σ) (t : ℕ) : TrainState σ :=
  { s with loss := ((Finset.range batch_size).sum
      (fun i => (s.y_pred i - bentry s.y_perm t i) ^ 2)) }

/-- `optimizer.zero_grad()`: resets the gradient accumulators of the
registered parameters. -/
def zeroGradOp {σ : Type} (s : TrainState σ) : TrainState σ :=
  { s with gw := 0, gb := 0 }

/-- `loss.backward()`: accumulates into `w.grad` and `b.grad` the gradients
of `Σ_i (y_pred_i - y_i)²` with `y_pred_i = w * x_i + b`, namely
`Σ_i 2 (y_pred_i - y_i) x_i` and `Σ_i 2 (y_pred_i - y_i)`. -/
def backwardOp {σ : Type} (s : TrainState σ) (t : ℕ) : TrainState σ :=
  { s with
    gw := (s.gw + (Finset.range batch_size).sum
      (fun i => 2 * (s.y_pred i - bentry s.y_perm t i) * bentry s.x_perm t i))
    gb := (s.gb + (Finset.range batch_size).sum
      (fun i => 2 * (s.y_pred i - bentry s.y_perm t i))) }

/-- `optimizer.step()`: hands the parameters and their gradients to the
abstract optimizer and writes back the updated parameters and internal
optimizer state. -/
def optStepOp {σ : Type} (opt : OptStep σ) (s : TrainState σ) : TrainState σ :=
  { s with
    opt := (opt s.opt (s.w, s.b) (s.gw, s.gb)).1
    w := (opt s.opt (s.w, s.b) (s.gw, s.gb)).2.1
    b := (opt s.opt (s.w, s.b) (s.gw, s.gb)).2.2 }

/-- The body of the inner loop for batch `t`, as the ordered list of its five
statements, each paired with its event tag. -/
inductive Event : Type
  | forwardPass
  | lossComp
  | zeroGrad
  | backwardPass
  | optStep
deriving DecidableEq, Repr

/-- The five statements of the inner loop body, in source order, each with
its event tag. -/
def batchOps {σ : Type} (opt : OptStep σ) (t : ℕ) :
    List ((TrainState σ → TrainState σ) × Event) :=
  [(fun s => forwardOp s t, Event.forwardPass),
   (fun s => lossOp s t, Event.lossComp),
   (zeroGradOp, Event.zeroGrad),
   (fun s => backwardOp s t, Event.backwardPass),
   (optStepOp opt, Event.optStep)]

/-- One iteration of the inner loop: runs the five statements of
`batchOps` in order. -/
def batchStep {σ : Type} (opt : OptStep σ) (t : ℕ) (s : TrainState σ) :
    TrainState σ :=
  (batchOps opt t).foldl (fun st op => op.1 st) s

/-- The trace of events the inner loop body emits for one batch. -/
def batchTrace {σ : Type} (opt : OptStep σ) (t : ℕ) : List Event :=
  (batchOps opt t).map Prod.snd

/-- The epoch-start shuffle: draws one permutation `p` (`torch.randperm`)
and applies the same `p` to both dataset tensors:
`x_perm = x[rand_perm]; y_perm = y[rand_perm]`. -/
def setPerm {σ : Type} (p : ℕ → ℕ) (s : TrainState σ) : TrainState σ :=
  { s with x_perm := indexSelect0 s.x p, y_perm := indexSelect0 s.y p }

/-- The first `k` iterations of the inner loop (`for t in range(k)`). -/
def innerUpTo {σ : Type} (opt : OptStep σ) (k : ℕ) (s : TrainState σ) :
    TrainState σ :=
  (List.range k).foldl (fun st t => batchStep opt t st) s

/-- The complete inner loop `for t in range(n_batches)`. -/
def innerFold {σ : Type} (opt : OptStep σ) (s : TrainState σ) : TrainState σ :=
  innerUpTo opt n_batches s

/-- One epoch: shuffle, run the inner loop, then
`history.append(loss.item())` with the `loss` variable left by the last
batch. -/
def epochStep {σ : Type} (opt : OptStep σ) (p : ℕ → ℕ) (s : TrainState σ) :
    TrainState σ :=
  let s2 := innerFold opt (setPerm p s)
  { s2 with history := s2.history ++ [s2.loss] }

/-- The first `e` epochs of the training cell; the random permutation drawn
at the start of epoch `k` is `perms k`. -/
def afterEpochs {σ : Type} (opt : OptStep σ) (perms : ℕ → ℕ → ℕ) (e : ℕ)
    (s : TrainState σ) : TrainState σ :=
  (List.range e).foldl (fun st k => epochStep opt (perms k) st) s

/-- The whole training cell: `for e in range(epoches): ...`. -/
def trainLoop {σ : Type} (opt : OptStep σ) (perms : ℕ → ℕ → ℕ)
    (s : TrainState σ) : TrainState σ :=
  afterEpochs opt perms epoches s

/-- A `Linear` with `units = input_dim = 1` whose parameter entries are the
scalars `w0` and `b0` (the state of the notebook's regression model at any
point of training). -/
def linear1 (w0 b0 : ℚ) : Linear :=
  ⟨⟨⟨[1, 1], fun _ => w0⟩, true⟩, ⟨⟨[1], fun _ => b0⟩, true⟩⟩

/-- `model = Linear(units=1, input_dim=1)`, with `w0` the value drawn by
`torch.randn((1, 1))`. -/
def model (w0 : ℚ) : Linear :=
  Linear.init 1 1 (fun _ => w0)

/-- A one-element tensor, as in `model(torch.tensor([10.]))`. -/
def scalarT (v : ℚ) : Tensor :=
  ⟨[1], fun _ => v⟩

/-- A concrete training state over the stateless optimizer, used to
instantiate universally quantified theorems: dataset tensors of the
notebook's shape `[64, 32, 1]` with distinct entries. -/
def witState : TrainState Unit :=
  ⟨⟨[64, 32, 1], fun n => (n : ℚ)⟩, ⟨[64, 32, 1], fun n => (n : ℚ) + 1⟩,
   ⟨[], fun _ => 0⟩, ⟨[], fun _ => 0⟩, 0, 0, 0, 0, fun _ => 0, 0, (), []⟩

end TorchLearn

set_option maxRecDepth 8000

namespace TorchLearn

/-- Folding a list leaves any observation `g` fixed when every step does. -/
theorem foldl_fix {α β γ : Type} (g : α → γ) (f : α → β → α)
    (h : ∀ a b, g (f a b) = g a) :
    ∀ (l : List β) (a : α), g (l.foldl f a) = g a := by
  intro l
  induction l with
  | nil => intro a; rfl
  | cons hd tl ih => intro a; rw [List.foldl_cons, ih, h]

/-- C2: a `MyLambda` constructed with `f` stores `f` unchanged, and invoking
the layer on any input `x` returns exactly `f x`. -/
theorem mylambda_stores_and_applies {α β : Type} (f : α → β) (x : α) :
    (MyLambda.mk f).func = f ∧ (MyLambda.mk f).forward x = f x :=
  ⟨rfl, rfl⟩

/-- C5: the learnable state of a `Linear` built by `__init__` is exactly the
two parameters `w` of shape `[input_dim, units]` and `b` of shape `[units]`,
both with `requires_grad` set, and `parameters()` yields exactly them. -/
theorem linear_two_parameters (units input_dim : ℕ) (wdata : ℕ → ℚ) :
    (Linear.init units input_dim wdata).parameters
        = [(Linear.init units input_dim wdata).w, (Linear.init units input_dim wdata).b]
      ∧ (Linear.init units input_dim wdata).parameters.length = 2
      ∧ (Linear.init units input_dim wdata).w.tensor.shape = [input_dim, units]
      ∧ (Linear.init units input_dim wdata).b.tensor.shape = [units]
      ∧ (Linear.init units input_dim wdata).w.requires_grad = true
      ∧ (Linear.init units input_dim wdata).b.requires_grad = true :=
  ⟨rfl, rfl, rfl, rfl, rfl, rfl⟩

/-- C10: a `MyLambda` registers no learnable parameters, whatever function it
wraps: its parameter list is empty, so mapping any parameter update over it
changes nothing, and its stored state is just the wrapped function. -/
theorem mylambda_no_parameters {α β : Type} (f : α → β) (g : Parameter → Parameter) :
    (MyLambda.mk f).parameters = []
      ∧ (MyLambda.mk f).parameters.length = 0
      ∧ ((MyLambda.mk f).parameters.map g) = (MyLambda.mk f).parameters
      ∧ (MyLambda.mk f).func = f :=
  ⟨rfl, rfl, rfl, rfl⟩

/-- C3: for every batch of every epoch the inner loop body is the ordered
composition forward pass, loss computation, gradient zeroing,
backpropagation, optimizer step: its event trace is exactly that sequence,
its state transition is exactly that composition, and the inner loop folds
this body over the batch indices in order. -/
theorem training_batch_order {σ : Type} (opt : OptStep σ) (t : ℕ) (s : TrainState σ) :
    batchStep opt t s
        = optStepOp opt (backwardOp (zeroGradOp (lossOp (forwardOp s t) t)) t)
      ∧ batchTrace opt t
          = [Event.forwardPass, Event.lossComp, Event.zeroGrad,
             Event.backwardPass, Event.optStep]
      ∧ innerFold opt s
          = (List.range n_batches).foldl (fun st t2 => batchStep opt t2 st) s :=
  ⟨rfl, rfl, rfl⟩

/-- C7: the notebook's model is the custom `Linear` itself at
`units = 1, input_dim = 1` (with freshly zeroed bias), and for any parameter
values `w0`, `b0` its prediction on the one-element input `x0` is the scalar
affine value `w0 * x0 + b0` — which is also the `predict` function the
training-loop embedding uses. -/
theorem model_is_linear_one (w0 b0 x0 : ℚ) :
    model w0 = linear1 w0 0
      ∧ ((linear1 w0 b0).forward (scalarT x0)).map (fun t => (t.shape, t.data 0))
          = some ([1], w0 * x0 + b0)
      ∧ predict w0 b0 x0 = w0 * x0 + b0 := by
  refine ⟨rfl, ?_, rfl⟩
  show (Option.bind (matmul (scalarT x0) (linear1 w0 b0).w.tensor)
      (fun t => addVec t (linear1 w0 b0).b.tensor)).map (fun t => (t.shape, t.data 0))
    = some ([1], w0 * x0 + b0)
  simp only [matmul, addVec, linear1, scalarT]
  norm_num [Finset.sum_range_one]
  ring

/-- C8: `Linear.forward` succeeds exactly when the input has at least one
dimension and its last dimension equals `input_dim`; in that case the output
shape is the input shape with its last dimension replaced by `units`. -/
theorem forward_defined_iff_shape (units input_dim : ℕ) (wdata : ℕ → ℚ) (x : Tensor) :
    ((Linear.init units input_dim wdata).forward x).map Tensor.shape
      = if x.shape ≠ [] ∧ x.shape.getLastD 0 = input_dim
          then some (x.shape.dropLast ++ [units]) else none := by
  show (Option.bind (matmul x ⟨[input_dim, units], wdata⟩)
      (fun t => addVec t ⟨[units], fun _ => 0⟩)).map Tensor.shape = _
  simp only [matmul, addVec]
  by_cases h : x.shape ≠ [] ∧ x.shape.getLastD 0 = input_dim
  · rw [if_pos h, if_pos h, Option.some_bind]
    have hne : x.shape.dropLast ++ [units] ≠ [] := by simp
    have hlast : (x.shape.dropLast ++ [units]).getLastD 0 = units :=
      List.getLastD_concat _ _ _
    rw [if_pos ⟨hne, hlast⟩]
    rfl
  · rw [if_neg h, if_neg h]
    rfl

/-- C1: on a well-shaped layer (`w : [d, u]`, `b : [u]`) and any input whose
last dimension is `d`, `forward` returns `torch.matmul(x, w) + b`: the output
has shape `x.shape[:-1] ++ [u]` and its entry at row `r`, column `j` is the
affine value `Σ_{i<d} x[r, i] * w[i, j] + b[j]`. -/
theorem linear_forward_affine (l : Linear) (d u : ℕ) (x : Tensor) (r j : ℕ)
    (hw : l.w.tensor.shape = [d, u]) (hb : l.b.tensor.shape = [u])
    (hx : x.shape ≠ []) (hlast : x.shape.getLastD 0 = d) (hj : j < u) :
    ∃ res, l.forward x = some res
      ∧ res.shape = x.shape.dropLast ++ [u]
      ∧ res.data (r * u + j)
          = (Finset.range d).sum
              (fun i => x.data (r * d + i) * l.w.tensor.data (i * u + j))
            + l.b.tensor.data j := by
  obtain ⟨⟨⟨ws, wd⟩, wr⟩, ⟨⟨bs, bd⟩, br⟩⟩ := l
  simp only at hw hb
  subst hw
  subst hb
  have hu : 0 < u := Nat.pos_of_ne_zero (fun h0 => by omega)
  have hdiv : (r * u + j) / u = r := by
    rw [Nat.add_comm, Nat.add_mul_div_right _ _ hu, Nat.div_eq_of_lt hj, Nat.zero_add]
  have hmod : (r * u + j) % u = j := by
    rw [Nat.add_comm, Nat.add_mul_mod_self_right, Nat.mod_eq_of_lt hj]
  refine ⟨⟨x.shape.dropLast ++ [u], fun idx =>
      (Finset.range d).sum
        (fun i => x.data ((idx / u) * d + i) * wd (i * u + idx % u)) + bd (idx % u)⟩,
    ?_, rfl, ?_⟩
  · show Option.bind (matmul x ⟨[d, u], wd⟩) (fun t => addVec t ⟨[u], bd⟩) = _
    simp only [matmul, addVec]
    rw [if_pos ⟨hx, hlast⟩, Option.some_bind]
    have hne : x.shape.dropLast ++ [u] ≠ [] := by simp
    have hl2 : (x.shape.dropLast ++ [u]).getLastD 0 = u := List.getLastD_concat _ _ _
    rw [if_pos ⟨hne, hl2⟩]
  · simp only [hdiv, hmod]

/-- Witness for `linear_forward_affine` at the concrete layer `w = 2`,
`b = 3` (`d = u = 1`) applied to the one-element input `5`. -/
theorem linear_forward_affine_witness :
    ∃ res, (linear1 2 3).forward (scalarT 5) = some res
      ∧ res.shape = (scalarT 5).shape.dropLast ++ [1]
      ∧ res.data (0 * 1 + 0)
          = (Finset.range 1).sum
              (fun i => (scalarT 5).data (0 * 1 + i) * (linear1 2 3).w.tensor.data (i * 1 + 0))
            + (linear1 2 3).b.tensor.data 0 :=
  linear_forward_affine (linear1 2 3) 1 1 (scalarT 5) 0 0 rfl rfl (by decide) rfl (by decide)

/-- Reindexing the leading batch axis with `perm` moves batch `perm t` of a
dataset tensor of shape `[n_batches, batch_size, 1]` to position `t`. -/
theorem indexSelect0_bentry (d : Tensor) (p : ℕ → ℕ) (t i : ℕ)
    (hs : d.shape = [n_batches, batch_size, 1]) (hi : i < batch_size) :
    bentry (indexSelect0 d p) t i = bentry d (p t) i := by
  have hbs : 0 < batch_size := by decide
  unfold bentry indexSelect0
  simp only [hs]
  have hprod : (List.drop 1 [n_batches, batch_size, 1]).prod = batch_size := by
    simp [List.prod_cons, List.prod_nil]
  rw [hprod]
  have hdiv : (t * batch_size + i) / batch_size = t := by
    rw [Nat.add_comm, Nat.add_mul_div_right _ _ hbs, Nat.div_eq_of_lt hi, Nat.zero_add]
  have hmod : (t * batch_size + i) % batch_size = i := by
    rw [Nat.add_comm, Nat.add_mul_mod_self_right, Nat.mod_eq_of_lt hi]
  rw [hdiv, hmod]

/-- C4: each epoch starts by drawing one permutation `p` and applying that
same `p` to both the input tensor and the target tensor, so the shuffled
batch `t` is the original pair of input batch `p t` and target batch `p t`:
input and target batches stay paired. -/
theorem epoch_shuffle_pairs {σ : Type} (opt : OptStep σ) (s : TrainState σ)
    (p : ℕ → ℕ) (t i : ℕ)
    (hx : s.x.shape = [n_batches, batch_size, 1])
    (hy : s.y.shape = [n_batches, batch_size, 1])
    (hi : i < batch_size) :
    epochStep opt p s
        = { innerFold opt (setPerm p s) with
            history := (innerFold opt (setPerm p s)).history
              ++ [(innerFold opt (setPerm p s)).loss] }
      ∧ bentry (setPerm p s).x_perm t i = bentry s.x (p t) i
      ∧ bentry (setPerm p s).y_perm t i = bentry s.y (p t) i :=
  ⟨rfl, indexSelect0_bentry s.x p t i hx hi, indexSelect0_bentry s.y p t i hy hi⟩

/-- Witness for `epoch_shuffle_pairs` on the concrete state `witState`, the
permutation shifting every index by one, batch `0` and element `1`. -/
theorem epoch_shuffle_pairs_witness :
    epochStep (sgdStep 1) (fun n => n + 1) witState
        = { innerFold (sgdStep 1) (setPerm (fun n => n + 1) witState) with
            history := (innerFold (sgdStep 1) (setPerm (fun n => n + 1) witState)).history
              ++ [(innerFold (sgdStep 1) (setPerm (fun n => n + 1) witState)).loss] }
      ∧ bentry (setPerm (fun n => n + 1) witState).x_perm 0 1
          = bentry witState.x ((fun n => n + 1) 0) 1
      ∧ bentry (setPerm (fun n => n + 1) witState).y_perm 0 1
          = bentry witState.y ((fun n => n + 1) 0) 1 :=
  epoch_shuffle_pairs (sgdStep 1) witState (fun n => n + 1) 0 1 rfl rfl (by decide)

/-- One inner-loop iteration never writes the dataset tensor `x`. -/
theorem batchStep_x {σ : Type} (opt : OptStep σ) (t : ℕ) (s : TrainState σ) :
    (batchStep opt t s).x = s.x :=
  rfl

/-- One inner-loop iteration never writes the dataset tensor `y`. -/
theorem batchStep_y {σ : Type} (opt : OptStep σ) (t : ℕ) (s : TrainState σ) :
    (batchStep opt t s).y = s.y :=
  rfl

/-- One inner-loop iteration never writes the `history` list. -/
theorem batchStep_history {σ : Type} (opt : OptStep σ) (t : ℕ) (s : TrainState σ) :
    (batchStep opt t s).history = s.history :=
  rfl

/-- After one inner-loop iteration the `loss` variable holds the value the
loss computation of that same iteration produced: the later statements
(gradient zeroing, backward, optimizer step) do not change it. -/
theorem batchStep_loss {σ : Type} (opt : OptStep σ) (t : ℕ) (s : TrainState σ) :
    (batchStep opt t s).loss = (lossOp (forwardOp s t) t).loss :=
  rfl

/-- The inner loop never writes `x`. -/
theorem innerFold_x {σ : Type} (opt : OptStep σ) (s : TrainState σ) :
    (innerFold opt s).x = s.x :=
  foldl_fix TrainState.x (fun st t => batchStep opt t st)
    (fun a t => batchStep_x opt t a) (List.range n_batches) s

/-- The inner loop never writes `y`. -/
theorem innerFold_y {σ : Type} (opt : OptStep σ) (s : TrainState σ) :
    (innerFold opt s).y = s.y :=
  foldl_fix TrainState.y (fun st t => batchStep opt t st)
    (fun a t => batchStep_y opt t a) (List.range n_batches) s

/-- The inner loop never writes the `history` list. -/
theorem innerFold_history {σ : Type} (opt : OptStep σ) (s : TrainState σ) :
    (innerFold opt s).history = s.history :=
  foldl_fix TrainState.history (fun st t => batchStep opt t st)
    (fun a t => batchStep_history opt t a) (List.range n_batches) s

/-- The epoch-start shuffle does not touch the `history` list. -/
theorem setPerm_history {σ : Type} (p : ℕ → ℕ) (s : TrainState σ) :
    (setPerm p s).history = s.history :=
  rfl

/-- Unfolding one epoch: shuffle, inner loop, then append the last loss. -/
theorem epochStep_eq {σ : Type} (opt : OptStep σ) (p : ℕ → ℕ) (s : TrainState σ) :
    epochStep opt p s
      = { innerFold opt (setPerm p s) with
          history := (innerFold opt (setPerm p s)).history
            ++ [(innerFold opt (setPerm p s)).loss] } :=
  rfl

/-- A whole epoch never writes `x`. -/
theorem epochStep_x {σ : Type} (opt : OptStep σ) (p : ℕ → ℕ) (a : TrainState σ) :
    (epochStep opt p a).x = a.x := by
  rw [epochStep_eq]
  exact innerFold_x opt (setPerm p a)

/-- A whole epoch never writes `y`. -/
theorem epochStep_y {σ : Type} (opt : OptStep σ) (p : ℕ → ℕ) (a : TrainState σ) :
    (epochStep opt p a).y = a.y := by
  rw [epochStep_eq]
  exact innerFold_y opt (setPerm p a)

/-- The `history` an epoch leaves behind: what it found, plus the loss of
the last batch of its inner loop. -/
theorem epochStep_history {σ : Type} (opt : OptStep σ) (p : ℕ → ℕ) (s : TrainState σ) :
    (epochStep opt p s).history
      = (innerFold opt (setPerm p s)).history
        ++ [(innerFold opt (setPerm p s)).loss] :=
  rfl

/-- C6: the optimizer step rewrites only the parameters `w`, `b` (to the
values the abstract optimizer computes from the current parameters and their
gradients) and the optimizer's own state; every other component of the
training state — in particular the synthetic dataset tensors `x` and `y` —
is untouched, and the whole training loop leaves `x` and `y` unchanged. -/
theorem train_frame {σ : Type} (opt : OptStep σ) (perms : ℕ → ℕ → ℕ)
    (s0 : TrainState σ) (e : ℕ) (s : TrainState σ) :
    ((afterEpochs opt perms e s0).x = s0.x ∧ (afterEpochs opt perms e s0).y = s0.y)
      ∧ ((optStepOp opt s).x = s.x ∧ (optStepOp opt s).y = s.y
         ∧ (optStepOp opt s).x_perm = s.x_perm ∧ (optStepOp opt s).y_perm = s.y_perm
         ∧ (optStepOp opt s).y_pred = s.y_pred ∧ (optStepOp opt s).loss = s.loss
         ∧ (optStepOp opt s).gw = s.gw ∧ (optStepOp opt s).gb = s.gb
         ∧ (optStepOp opt s).history = s.history)
      ∧ ((optStepOp opt s).w = (opt s.opt (s.w, s.b) (s.gw, s.gb)).2.1
         ∧ (optStepOp opt s).b = (opt s.opt (s.w, s.b) (s.gw, s.gb)).2.2) :=
  ⟨⟨foldl_fix TrainState.x (fun st k => epochStep opt (perms k) st)
      (fun a k => epochStep_x opt (perms k) a) (List.range e) s0,
    foldl_fix TrainState.y (fun st k => epochStep opt (perms k) st)
      (fun a k => epochStep_y opt (perms k) a) (List.range e) s0⟩,
   ⟨rfl, rfl, rfl, rfl, rfl, rfl, rfl, rfl, rfl⟩, rfl, rfl⟩

/-- Peeling the last epoch off the outer loop. -/
theorem afterEpochs_succ {σ : Type} (opt : OptStep σ) (perms : ℕ → ℕ → ℕ)
    (e : ℕ) (s : TrainState σ) :
    afterEpochs opt perms (e + 1) s
      = epochStep opt (perms e) (afterEpochs opt perms e s) := by
  unfold afterEpochs
  rw [List.range_succ, List.foldl_append]
  rfl

/-- Each epoch appends exactly one entry to `history`. -/
theorem afterEpochs_history_len {σ : Type} (opt : OptStep σ) (perms : ℕ → ℕ → ℕ) :
    ∀ (e : ℕ) (s : TrainState σ),
      (afterEpochs opt perms e s).history.length = s.history.length + e := by
  intro e
  induction e with
  | zero => intro s; rfl
  | succ n ih =>
    intro s
    rw [afterEpochs_succ, epochStep_history, List.length_append, innerFold_history,
      setPerm_history, ih s, List.length_singleton]
    omega

/-- C9: starting from an empty `history`, training leaves exactly `epoches`
entries; epoch `e` appends exactly one entry, the value of the `loss`
variable after the inner loop; and that value is the loss computed on the
last batch alone (batch `n_batches - 1`), not an aggregate over the epoch. -/
theorem history_last_batch_loss {σ : Type} (opt : OptStep σ) (perms : ℕ → ℕ → ℕ)
    (s0 : TrainState σ) (e : ℕ) (s : TrainState σ) :
    (trainLoop opt perms { s0 with history := [] }).history.length = epoches
      ∧ (afterEpochs opt perms (e + 1) s0).history
          = (afterEpochs opt perms e s0).history
            ++ [(innerFold opt (setPerm (perms e) (afterEpochs opt perms e s0))).loss]
      ∧ (innerFold opt s).loss
          = (lossOp (forwardOp (innerUpTo opt (n_batches - 1) s) (n_batches - 1))
              (n_batches - 1)).loss := by
  refine ⟨?_, ?_, ?_⟩
  · show (afterEpochs opt perms epoches { s0 with history := [] }).history.length = epoches
    rw [afterEpochs_history_len opt perms epoches]
    show (0 : ℕ) + epoches = epoches
    exact Nat.zero_add epoches
  · rw [afterEpochs_succ, epochStep_history, innerFold_history, setPerm_history]
  · have h64 : List.range n_batches = List.range (n_batches - 1) ++ [n_batches - 1] :=
      List.range_succ 63
    show ((List.range n_batches).foldl (fun st t => batchStep opt t st) s).loss = _
    rw [h64, List.foldl_append, List.foldl_cons, List.foldl_nil]
    show (batchStep opt (n_batches - 1)
        ((List.range (n_batches - 1)).foldl (fun st t => batchStep opt t st) s)).loss = _
    rw [batchStep_loss]
    rfl

end TorchLearn
